import Mathlib

/-
  Verification development for the AudioTestAutomation repository.

  The definitions below are a shallow embedding of the Python sources:
    - models/test_models.py   (TestStatus, SpeakerRole, DialogueLine, TestScript, AudioFile, TestResult)
    - services/test_orchestrator.py (TestOrchestrator.run_full_test and its six steps)
    - services/llm_service.py (LLMService._normalize_text, _parse_analysis_response, analyze_conversation)
    - services/stt_service.py (STTService.transcribe_audio)
    - api/routes.py           (start_test, delete_test, cleanup_old_tests, list_tests)

  Python strings are modelled as Lean String / List Char; Python floats as Rat
  (the scores and durations manipulated here are plain decimal numbers);
  datetime values as Int; fallible calls as Except String; the external
  collaborators (TTS, call simulation, storage, STT backend, LLM backend) as
  explicit environments of fallible functions.
-/

/-! ## Python text primitives -/

/-- Python whitespace class for str.strip and the regex class backslash-s,
restricted to the ASCII whitespace characters (space, tab, newline, carriage
return, vertical tab, form feed), which is the alphabet this system exercises. -/
def isPySpace (c : Char) : Bool :=
  c = ' ' || c = '\t' || c = '\n' || c = '\r' || c.toNat = 11 || c.toNat = 12

/-- Python str.strip on a character list: drop whitespace from both ends. -/
def pyStripList (cs : List Char) : List Char :=
  ((cs.dropWhile isPySpace).reverse.dropWhile isPySpace).reverse

/-- Python str.strip on a String. -/
def pyStripStr (s : String) : String :=
  String.mk (pyStripList s.toList)

/-- Python str.split of a string on the newline character: keeps empty
segments, and the empty string yields one empty segment. -/
def splitNl : List Char → List (List Char)
  | [] => [[]]
  | c :: rest =>
    if c = '\n' then [] :: splitNl rest
    else
      match splitNl rest with
      | [] => [[c]]
      | l :: ls => (c :: l) :: ls

/-- Python line.split with a colon and maxsplit one: the text before the first
colon and the text after it, or nothing when the line has no colon. -/
def firstColonSplit : List Char → Option (List Char × List Char)
  | [] => none
  | c :: rest =>
    if c = ':' then some ([], rest)
    else
      match firstColonSplit rest with
      | none => none
      | some (a, b) => some (c :: a, b)

/-- Python str.lower, ASCII case folding (the CJK characters used by the
localized role labels have no case). -/
def pyLower (cs : List Char) : List Char :=
  cs.map Char.toLower

/-! ## Data model (models/test_models.py) -/

/-- TestStatus enumeration. -/
inductive TestStatus
  | pending
  | running
  | completed
  | failed
deriving DecidableEq, Repr

/-- SpeakerRole enumeration. -/
inductive SpeakerRole
  | customer
  | agent
deriving DecidableEq, Repr

/-- DialogueLine dataclass: speaker, text, pause_after (default 1.0). -/
structure DialogueLine where
  speaker : SpeakerRole
  text : String
  pause_after : ℚ
deriving DecidableEq, Repr

/-- Role recognition of TestScript.parse_content: the stripped, lowered text
before the first colon must be one of the labels 客戶 / customer (CUSTOMER) or
客服 / agent (AGENT); any other label is rejected. -/
def roleOf (roleStr : List Char) : Option SpeakerRole :=
  if roleStr = "客戶".toList ∨ roleStr = "customer".toList then some SpeakerRole.customer
  else if roleStr = "客服".toList ∨ roleStr = "agent".toList then some SpeakerRole.agent
  else none

/-- One line of TestScript.parse_content: if the line has a colon, split at
the first colon, strip and lower the role part, and when it is a recognized
label emit a DialogueLine with the stripped remaining text and pause 1.0;
otherwise drop the line. -/
def parseLinePy (line : List Char) : Option DialogueLine :=
  match firstColonSplit line with
  | none => none
  | some (roleRaw, rest) =>
    match roleOf (pyLower (pyStripList roleRaw)) with
    | none => none
    | some role => some ⟨role, String.mk (pyStripList rest), 1⟩

/-- TestScript.parse_content: strip the content, split it into lines on the
newline character, and keep the recognized lines in order. -/
def parse_content (content : String) : List DialogueLine :=
  (splitNl (pyStripList content.toList)).filterMap parseLinePy

/-- Claim-side restatement of the parser contract, worded from the spec: a
DialogueLine is emitted for exactly those physical lines of the raw script
that carry a recognized role label followed by the separator, in original
order, and every other physical line is dropped. -/
def claimParse (content : String) : List DialogueLine :=
  (splitNl content.toList).filterMap parseLinePy

/-! ## Text normalization (LLMService._normalize_text) -/

/-- Collapse every whitespace run to a single space, tracking whether the
previous character was whitespace: the embedding of re.sub of one-or-more
whitespace with a single space. -/
def collapseWsAux : Bool → List Char → List Char
  | _, [] => []
  | prevWs, c :: rest =>
    if isPySpace c then
      if prevWs then collapseWsAux true rest
      else ' ' :: collapseWsAux true rest
    else c :: collapseWsAux false rest

/-- Whitespace-run collapsing applied from a non-whitespace start state. -/
def collapseWs (cs : List Char) : List Char :=
  collapseWsAux false cs

/-- Case-insensitive prefix match: when the pattern characters all match the
front of the text under ASCII lowering, return the rest of the text. -/
def dropCi : List Char → List Char → Option (List Char)
  | [], cs => some cs
  | _ :: _, [] => none
  | p :: ps, c :: cs => if c.toLower = p.toLower then dropCi ps cs else none

/-- Alternation over the role-label set of the normalization regex, in the
pattern order 客戶, 客服, customer, agent. -/
def matchLabel (cs : List Char) : Option (List Char) :=
  (dropCi "客戶".toList cs) <|> (dropCi "客服".toList cs) <|>
    (dropCi "customer".toList cs) <|> (dropCi "agent".toList cs)

/-- Role-label removal stage of LLMService._normalize_text. The Python code
substitutes the anchored pattern label, optional whitespace, fullwidth or
ASCII colon, optional whitespace, with the MULTILINE and IGNORECASE flags.
This stage runs after whitespace collapsing, so its input contains no newline
character and the MULTILINE caret can only match at the very start of the
text; the substitution therefore removes at most the one anchored match. -/
def stripRoleLabelStage (cs : List Char) : List Char :=
  match matchLabel cs with
  | none => cs
  | some rest =>
    match rest.dropWhile isPySpace with
    | [] => cs
    | c :: rest2 =>
      if c = ':' ∨ c = '：' then rest2.dropWhile isPySpace else cs

/-- Word characters of the regex class backslash-w in Python 3 (Unicode-aware),
restricted to the alphabet this system exercises: ASCII letters and digits,
the underscore, and the CJK Unified Ideographs range. -/
def isWordChar (c : Char) : Bool :=
  c.isAlpha || c.isDigit || c = '_' || (0x4e00 ≤ c.toNat && c.toNat ≤ 0x9fff)

/-- LLMService._normalize_text: empty text maps to the empty string; otherwise
strip, collapse whitespace runs, remove the anchored role-label match, delete
every character that is neither a word character nor whitespace, and strip
again. -/
def normalize_text (s : String) : String :=
  if s = "" then ""
  else
    let t1 := collapseWs (pyStripList s.toList)
    let t2 := stripRoleLabelStage t1
    let t3 := t2.filter (fun c => isWordChar c || isPySpace c)
    String.mk (pyStripList t3)

/-- Pre-scoring stage of LLMService.analyze_conversation: reject an empty or
whitespace-only script or transcript, otherwise hand the pair of normalized
texts to the scorer prompt. -/
def scorerInputs (original transcribed : String) : Option (String × String) :=
  if pyStripStr original = "" then none
  else if pyStripStr transcribed = "" then none
  else some (normalize_text original, normalize_text transcribed)

/-! ## Analysis dictionaries (LLMService._parse_analysis_response) -/

/-- Values of the JSON objects this system passes around: numbers, strings,
and lists (which are lists of strings everywhere in this code base). -/
inductive PyVal
  | num (q : ℚ)
  | str (s : String)
  | arr (l : List String)
deriving DecidableEq, Repr

/-- Analysis dictionary: a JSON object as an association list of string keys,
unique by dict semantics, in insertion order. -/
abbrev AnalysisDict : Type := List (String × PyVal)

/-- Python dict lookup of a key, none when absent. -/
def dictGet (d : AnalysisDict) (k : String) : Option PyVal :=
  (d.find? (fun p => p.1 = k)).map (fun p => p.2)

/-- Python dict.setdefault: insert the default at the end when the key is
absent, keep the dict unchanged when it is present. -/
def setdefault (d : AnalysisDict) (k : String) (v : PyVal) : AnalysisDict :=
  if (d.find? (fun p => p.1 = k)).isSome then d else d ++ [(k, v)]

/-- Python dict item assignment: overwrite the value at the key in place, or
append the binding when the key is absent. -/
def dictSet : AnalysisDict → String → PyVal → AnalysisDict
  | [], k, v => [(k, v)]
  | p :: rest, k, v => if p.1 = k then (k, v) :: rest else p :: dictSet rest k v

/-- Python float() applied to a JSON value: numbers convert to themselves and
any other value raises, modelled as none. (A string spelling a decimal
numeral would convert; this system never produces that case and no claim
depends on it.) -/
def pyFloat : PyVal → Option ℚ
  | PyVal.num q => some q
  | _ => none

/-- Default entries installed by _parse_analysis_response before clamping, in
source order. -/
def analysisDefaults : AnalysisDict :=
  [("accuracy_score", PyVal.num 0), ("summary", PyVal.str "分析完成"),
   ("key_differences", PyVal.arr []), ("suggestions", PyVal.arr []),
   ("reasoning", PyVal.str "")]

/-- Apply setdefault for every default entry, in order. -/
def withDefaults (d : AnalysisDict) : AnalysisDict :=
  analysisDefaults.foldl (fun acc p => setdefault acc p.1 p.2) d

/-- Degraded result returned when JSON decoding or the float conversion
raises inside _parse_analysis_response; emsg is the str of the exception. -/
def degradedDict (emsg : String) : AnalysisDict :=
  [("accuracy_score", PyVal.num 0), ("summary", PyVal.str "分析過程發生錯誤"),
   ("key_differences", PyVal.arr []),
   ("suggestions", PyVal.arr ["檢查輸入資料", "重新嘗試分析"]),
   ("reasoning", PyVal.str ("無法解析分析結果: " ++ emsg))]

/-- Raw outcome of json.loads on the backend response text: decoding raised,
or the decoded value is not a JSON object, or a JSON object. -/
inductive LLMRawResponse
  | malformed (emsg : String)
  | nonObj
  | obj (entries : AnalysisDict)

/-- LLMService._parse_analysis_response: a JSON decoding error is caught and
mapped to the degraded default dict; a decoded non-object raises an
AttributeError on setdefault, which the except clause does not catch; a
decoded object gets the defaults installed, then its accuracy_score is
converted with float() — a conversion error is caught and mapped to the
degraded dict — and stored back clamped to the interval from 0 to 100. -/
def parse_analysis_response : LLMRawResponse → Except String AnalysisDict
  | LLMRawResponse.malformed emsg => Except.ok (degradedDict emsg)
  | LLMRawResponse.nonObj => Except.error "AttributeError: setdefault"
  | LLMRawResponse.obj es =>
    let d := withDefaults es
    match pyFloat ((dictGet d "accuracy_score").getD (PyVal.num 0)) with
    | none => Except.ok (degradedDict "could not convert value to float")
    | some q => Except.ok (dictSet d "accuracy_score" (PyVal.num (max 0 (min 100 q))))

/-! ## Accumulator (models/test_models.py TestResult) -/

/-- AudioFile dataclass: file_path, duration, file_size, format. -/
structure AudioFile where
  file_path : String
  duration : ℚ
  file_size : Nat
  format : String
deriving DecidableEq, Repr

/-- TestResult dataclass, the per-job accumulator. Field names follow the
source except tts_audio and mock_response_audio, spelled ttsAudioRef and
mockResponseAudioRef here. -/
structure TestResult where
  test_id : String
  timestamp : Int
  status : TestStatus
  original_script : String
  ttsAudioRef : Option AudioFile
  mockResponseAudioRef : Option AudioFile
  transcribed_text : String
  llm_analysis : AnalysisDict
  accuracy_score : ℚ
  error_message : Option String
deriving DecidableEq, Repr

/-- Construction of a fresh TestResult as in start_test: dataclass defaults
with the given generated id, creation time and original script; status starts
PENDING, every artifact field is empty. -/
def mkTestResult (tid : String) (ts : Int) (script : String) : TestResult :=
  { test_id := tid, timestamp := ts, status := TestStatus.pending,
    original_script := script, ttsAudioRef := none, mockResponseAudioRef := none,
    transcribed_text := "", llm_analysis := [], accuracy_score := 0,
    error_message := none }

/-! ## Orchestrator (services/test_orchestrator.py) -/

/-- External collaborators consumed by the six steps, as fallible calls:
tts is TTSService.generate_dialogue_audio on the script content, simulate is
CustomerServiceMock.simulate_call on an audio path, store is
AudioStorageMock.store_audio, transcribe is STTService.transcribe_audio
returning text and confidence, analyze is LLMService.analyze_conversation
returning the structured analysis dict. -/
structure OrchEnv where
  tts : String → Except String AudioFile
  simulate : String → Except String AudioFile
  store : String → Except String String
  transcribe : String → Except String (String × ℚ)
  analyze : String → String → Except String AnalysisDict

/-- Instrumentation of one orchestrator run: status writes, step entries, and
external collaborator calls, in execution order. -/
inductive RunEvent
  | setStatus (s : TestStatus)
  | stepCall (n : Nat)
  | extCall (name : String)
deriving DecidableEq, Repr

/-- Step 1, _step1_script_to_speech: build the TestScript and request the
dialogue audio; on success store it as the accumulator's TTS artifact. -/
def _step1 (env : OrchEnv) (script : String) (r : TestResult) :
    Except String TestResult × List RunEvent :=
  match env.tts script with
  | Except.ok a => (Except.ok { r with ttsAudioRef := some a }, [RunEvent.extCall "tts"])
  | Except.error e => (Except.error e, [RunEvent.extCall "tts"])

/-- Step 2, _step2_simulate_call: fail when the TTS artifact is absent,
otherwise simulate the call on its path and store the response artifact. -/
def _step2 (env : OrchEnv) (r : TestResult) :
    Except String TestResult × List RunEvent :=
  match r.ttsAudioRef with
  | none => (Except.error "TTS 音檔不存在，無法進行模擬通話", [])
  | some a =>
    match env.simulate a.file_path with
    | Except.ok m =>
      (Except.ok { r with mockResponseAudioRef := some m }, [RunEvent.extCall "simulate"])
    | Except.error e => (Except.error e, [RunEvent.extCall "simulate"])

/-- Step 3, _step3_store_audio: fail when the response artifact is absent,
otherwise store it; the returned file id is only logged, so the accumulator
is unchanged on success. -/
def _step3 (env : OrchEnv) (r : TestResult) :
    Except String TestResult × List RunEvent :=
  match r.mockResponseAudioRef with
  | none => (Except.error "客服回應音檔不存在，無法儲存", [])
  | some a =>
    match env.store a.file_path with
    | Except.ok _ => (Except.ok r, [RunEvent.extCall "store"])
    | Except.error e => (Except.error e, [RunEvent.extCall "store"])

/-- Step 4, _step4_speech_to_text: fail when the response artifact is absent,
otherwise transcribe it and store the returned text; the returned confidence
is dropped, as in the source. -/
def _step4 (env : OrchEnv) (r : TestResult) :
    Except String TestResult × List RunEvent :=
  match r.mockResponseAudioRef with
  | none => (Except.error "客服回應音檔不存在，無法進行 STT", [])
  | some a =>
    match env.transcribe a.file_path with
    | Except.ok tc =>
      (Except.ok { r with transcribed_text := tc.1 }, [RunEvent.extCall "transcribe"])
    | Except.error e => (Except.error e, [RunEvent.extCall "transcribe"])

/-- Step 5, _step5_analyze_conversation: when the transcribed text is empty
the analysis is skipped and an empty dict is recorded; otherwise the scorer
is called on the original script and the transcript. -/
def _step5 (env : OrchEnv) (r : TestResult) :
    Except String TestResult × List RunEvent :=
  if r.transcribed_text = "" then (Except.ok { r with llm_analysis := [] }, [])
  else
    match env.analyze r.original_script r.transcribed_text with
    | Except.ok a => (Except.ok { r with llm_analysis := a }, [RunEvent.extCall "analyze"])
    | Except.error e => (Except.error e, [RunEvent.extCall "analyze"])

/-- Step 6, _step6_generate_report: an empty analysis dict yields the final
score 0; otherwise float() of the accuracy_score entry (default 0.0) is
stored as the final score, unclamped; a conversion error raises out of the
step. -/
def _step6 (r : TestResult) : Except String TestResult × List RunEvent :=
  if r.llm_analysis = ([] : AnalysisDict) then
    (Except.ok { r with accuracy_score := 0 }, [])
  else
    match pyFloat ((dictGet r.llm_analysis "accuracy_score").getD (PyVal.num 0)) with
    | some q => (Except.ok { r with accuracy_score := q }, [])
    | none => (Except.error "could not convert value to float", [])

/-- Terminal failure bookkeeping of run_full_test's except clause: status
FAILED, error_message the str of the exception. -/
def failedWith (r : TestResult) (e : String) : TestResult :=
  { r with status := TestStatus.failed, error_message := some e }

/-- Numbered step list of run_full_test, in source order. -/
def stepsOf (env : OrchEnv) :
    List (Nat × (TestResult → Except String TestResult × List RunEvent)) :=
  [(1, fun r => _step1 env r.original_script r), (2, _step2 env), (3, _step3 env),
   (4, _step4 env), (5, _step5 env), (6, fun r => _step6 r)]

/-- Sequential execution of a step list over the accumulator: on the first
step error, stop with that message and the accumulator as mutated by the
completed steps; record a step entry before each step's own events. -/
def runSeq : List (Nat × (TestResult → Except String TestResult × List RunEvent)) →
    TestResult → Option String × TestResult × List RunEvent
  | [], r => (none, r, [])
  | (n, f) :: fs, r =>
    match f r with
    | (Except.error e, l) => (some e, r, RunEvent.stepCall n :: l)
    | (Except.ok r2, l) =>
      let rest := runSeq fs r2
      (rest.1, rest.2.1, RunEvent.stepCall n :: (l ++ rest.2.2))

/-- TestOrchestrator.run_full_test: set RUNNING, check the script is present,
run the six steps in order inside the try, and on success set COMPLETED; any
exception is absorbed by the except clause, which sets FAILED and stores the
message — nothing propagates to the caller (the function is total). -/
def run_full_test (env : OrchEnv) (r0 : TestResult) : TestResult × List RunEvent :=
  let r := { r0 with status := TestStatus.running }
  if r.original_script = "" then
    (failedWith r "測試結果物件中缺少原始腳本",
     [RunEvent.setStatus TestStatus.running, RunEvent.setStatus TestStatus.failed])
  else
    match runSeq (stepsOf env) r with
    | (some e, rl, l) =>
      (failedWith rl e,
       RunEvent.setStatus TestStatus.running :: (l ++ [RunEvent.setStatus TestStatus.failed]))
    | (none, rf, l) =>
      ({ rf with status := TestStatus.completed },
       RunEvent.setStatus TestStatus.running :: (l ++ [RunEvent.setStatus TestStatus.completed]))

/-- Claim-side view of one step as a plain fallible function, by number. -/
def stepFun (env : OrchEnv) : Nat → TestResult → Except String TestResult
  | 1, r => (_step1 env r.original_script r).1
  | 2, r => (_step2 env r).1
  | 3, r => (_step3 env r).1
  | 4, r => (_step4 env r).1
  | 5, r => (_step5 env r).1
  | 6, r => (_step6 r).1
  | _, r => Except.ok r

/-- Claim-side sequential composition of the first k steps. -/
def runUpTo (env : OrchEnv) : Nat → TestResult → Except String TestResult
  | 0, r => Except.ok r
  | k + 1, r => (runUpTo env k r).bind (stepFun env (k + 1))

/-- The pipeline's first failure: steps before k succeed and step k raises
with message e. -/
def firstFailAt (env : OrchEnv) (r : TestResult) (k : Nat) (e : String) : Prop :=
  1 ≤ k ∧ k ≤ 6 ∧
    ∃ r2, runUpTo env (k - 1) r = Except.ok r2 ∧ stepFun env k r2 = Except.error e

/-! ## Registry and routes (api/routes.py) -/

/-- In-memory job registry: the module-level dict from test id to TestResult,
as an association list in insertion order with unique keys. -/
abbrev Registry : Type := List (String × TestResult)

/-- Registry lookup, the dict indexing of routes.py. -/
def regLookup (reg : Registry) (tid : String) : Option TestResult :=
  ((reg : List (String × TestResult)).find? (fun p => p.1 = tid)).map (fun p => p.2)

/-- Registry insertion, test_results with the new id assigned: overwrite in
place or append. -/
def regSet : Registry → String → TestResult → Registry
  | [], k, v => [(k, v)]
  | p :: rest, k, v => if p.1 = k then (k, v) :: rest else p :: regSet rest k v

/-- Registry deletion of a key. -/
def regDelete (reg : Registry) (tid : String) : Registry :=
  (reg : List (String × TestResult)).filter (fun p => ¬ p.1 = tid)

/-- HTTP error raised by a route handler: status code and detail text. -/
structure HErr where
  status : Nat
  detail : String
deriving DecidableEq, Repr

/-- Rewrap applied by start_test's catch-all except clause: any exception
raised inside the try, the validation HTTPException included, is re-raised as
a 500 whose detail embeds the str of the original exception, which for an
HTTPException is its status code and detail. -/
def wrap500 (e : HErr) : HErr :=
  ⟨500, "系統錯誤: " ++ toString e.status ++ ": " ++ e.detail⟩

/-- start_test: reject when the orchestrator is absent (503) or the script is
empty or whitespace-only (400) — both rejections happen before any
TestResult is constructed and are rewrapped by the catch-all clause as 500 —
otherwise create the accumulator with a fresh id and the current time,
register it, schedule the background run, and acknowledge immediately. The
returned registry is the mapping after the call. -/
def start_test (ready : Bool) (reg : Registry) (script : String) (newId : String)
    (now : Int) : Registry × Except HErr (String × String × String) :=
  if ¬ ready then (reg, Except.error (wrap500 ⟨503, "測試系統尚未就緒，請稍後再試"⟩))
  else if pyStripStr script = "" then
    (reg, Except.error (wrap500 ⟨400, "測試腳本不能為空"⟩))
  else
    let r := mkTestResult newId now script
    (regSet reg newId r, Except.ok (newId, "running", "測試已開始執行"))

/-- delete_test: 404 when the id is unknown, 400 when the job is RUNNING, and
otherwise remove the job and acknowledge with the remaining count. The
returned registry is the mapping after the call. -/
def delete_test (reg : Registry) (tid : String) :
    Registry × Except HErr (String × String × Nat) :=
  match regLookup reg tid with
  | none => (reg, Except.error ⟨404, "找不到指定的測試"⟩)
  | some r =>
    if r.status = TestStatus.running then
      (reg, Except.error ⟨400, "無法刪除正在執行中的測試"⟩)
    else
      let reg2 := regDelete reg tid
      (reg2, Except.ok ("測試記錄已成功刪除", tid, (reg2 : List (String × TestResult)).length))

/-- cleanup_old_tests with the cutoff datetime already computed: collect the
ids of the jobs that are not RUNNING and were created before the cutoff, then
delete exactly those ids; returns the new registry and the cleaned count. -/
def cleanup_old_tests (reg : Registry) (cutoff : Int) : Registry × Nat :=
  let toDelete :=
    ((reg : List (String × TestResult)).filter
      (fun p => ¬ p.2.status = TestStatus.running ∧ p.2.timestamp < cutoff)).map
      (fun p => p.1)
  (((reg : List (String × TestResult)).filter (fun p => ¬ p.1 ∈ toDelete) : Registry),
   toDelete.length)

/-- list_tests: the registered accumulators sorted most-recent-first by
creation time (Python sorted with reverse, a stable sort) and truncated to
the page limit. -/
def list_tests (reg : Registry) (limit : Nat) : List TestResult :=
  (((reg : List (String × TestResult)).map (fun p => p.2)).mergeSort
    (fun a b => decide (b.timestamp ≤ a.timestamp))).take limit

/-- Registry well-formedness maintained by routes.py: every entry is stored
under its accumulator's own test_id. -/
def regWF (reg : Registry) : Prop :=
  ∀ p ∈ (reg : List (String × TestResult)), p.2.test_id = p.1

/-! ## STT service (services/stt_service.py) -/

/-- Filesystem and backend facts transcribe_audio consults: whether the path
exists, its size in bytes, and the transcription backend's response text for
it (or a backend error). -/
structure STTEnv where
  fileExists : String → Bool
  size : String → Nat
  backend : String → Except String String

/-- STTService.transcribe_audio: reject a missing file, a file above 25 MiB,
or a file below 1 KiB; call the backend; strip the returned text and reject
it when empty; otherwise return the transcript with confidence exactly 1.0.
(The oversize message's interpolated size figure is elided.) -/
def transcribeAudioFile (env : STTEnv) (path : String) : Except String (String × ℚ) :=
  if ¬ env.fileExists path then Except.error ("音檔不存在: " ++ path)
  else if env.size path > 25 * 1024 * 1024 then Except.error "檔案過大，超過 25MB 限制"
  else if env.size path < 1024 then Except.error "檔案過小，可能沒有有效的音檔內容"
  else
    match env.backend path with
    | Except.error e => Except.error ("語音轉錄失敗: " ++ e)
    | Except.ok t =>
      let transcript := pyStripStr t
      if transcript = "" then Except.error "無法識別語音內容，檔案可能損壞或不包含語音"
      else Except.ok (transcript, 1)

/-! ## Demonstration values and auxiliary definitions -/

/-- Event lists produced inside a step contain only collaborator calls. -/
def extOnly (l : List RunEvent) : Prop :=
  ∀ ev ∈ l, ∃ nm, ev = RunEvent.extCall nm

/-- Assembly of the run log from the per-step logs: a step entry marker
followed by the step's own collaborator events, for each step in order. -/
def stepLog : List (Nat × List RunEvent) → List RunEvent
  | [] => []
  | (n, l) :: rest => RunEvent.stepCall n :: (l ++ stepLog rest)

/-- Appending one character to the last line of a split. -/
def appendLast (c : Char) : List (List Char) → List (List Char)
  | [] => [[c]]
  | [l] => [l ++ [c]]
  | l :: l2 :: ls => l :: appendLast c (l2 :: ls)

/-- Demonstration collaborator for the transcription witness. -/
def sttDemoEnv : STTEnv :=
  ⟨fun _ => true, fun _ => 2048, fun _ => Except.ok " 你好 "⟩

/-- C4 counterexample input: an accumulator whose analysis dict carries the
out-of-range score 150 at step 6. -/
def c4Input : TestResult :=
  { mkTestResult "c4" 0 "customer: hi" with
    llm_analysis := [("accuracy_score", PyVal.num 150)] }

/-- Demonstration job: PENDING, created at time 0, older than the cutoff 5. -/
def oldPendingJob : TestResult := mkTestResult "p1" 0 "customer: hi"

/-- Demonstration registry holding one RUNNING job of age beyond the cutoff. -/
def oldRunningJob : TestResult :=
  { mkTestResult "r1" 0 "customer: hi" with status := TestStatus.running }

/-- Demonstration registry for the delete witness: one COMPLETED job. -/
def doneJobReg : Registry :=
  [("d1", { mkTestResult "d1" 0 "customer: hi" with status := TestStatus.completed })]

/-- Demonstration audio artifacts and jobs for the orchestrator witnesses. -/
def demoAudioA : AudioFile := ⟨"tts.mp3", 1, 2048, "mp3"⟩

def demoAudioB : AudioFile := ⟨"sim.mp3", 1, 2048, "mp3"⟩

def demoJob : TestResult := mkTestResult "job1" 0 "customer: hi"

/-- Demonstration collaborators where the call simulation fails. -/
def demoEnvFail : OrchEnv :=
  ⟨fun _ => Except.ok demoAudioA, fun _ => Except.error "boom",
   fun _ => Except.ok "fid", fun _ => Except.ok ("hi", 1),
   fun _ _ => Except.ok (degradedDict "x")⟩

/-- Demonstration collaborators where transcription returns empty text and
the scorer refuses every call. -/
def demoEnvSkip : OrchEnv :=
  ⟨fun _ => Except.ok demoAudioA, fun _ => Except.ok demoAudioB,
   fun _ => Except.ok "fid", fun _ => Except.ok ("", 1),
   fun _ _ => Except.error "scorer must not be called"⟩

/-! ## Helper lemmas -/

theorem except_bind_ok {α β : Type} (a : Except String α) (f : α → Except String β)
    (b : β) : a.bind f = Except.ok b ↔ ∃ x, a = Except.ok x ∧ f x = Except.ok b := by
  cases a <;> simp [Except.bind]

theorem dictGet_dictSet (d : AnalysisDict) (k : String) (v : PyVal) :
    dictGet (dictSet d k v) k = some v := by
  induction d with
  | nil => simp [dictSet, dictGet, List.find?]
  | cons p rest ih =>
    by_cases h : p.1 = k
    · simp [dictSet, h, dictGet, List.find?]
    · simp only [dictSet, if_neg h]
      simpa [dictGet, List.find?, h] using ih

theorem dictSet_ne_nil (d : AnalysisDict) (k : String) (v : PyVal) :
    dictSet d k v ≠ ([] : AnalysisDict) := by
  cases d with
  | nil => simp [dictSet]
  | cons p rest =>
    simp only [dictSet]
    split <;> simp

theorem dictGet_ne_nil {d : AnalysisDict} {k : String} {v : PyVal}
    (h : dictGet d k = some v) : d ≠ ([] : AnalysisDict) := by
  intro hnil
  subst hnil
  simp [dictGet, List.find?] at h

theorem regLookup_regDelete_self (reg : Registry) (tid : String) :
    regLookup (regDelete reg tid) tid = none := by
  have h : (regDelete reg tid).find? (fun p => p.1 = tid) = none := by
    rw [List.find?_eq_none]
    intro p hp
    have := List.of_mem_filter hp
    simpa using this
  simp [regLookup, h]

theorem regLookup_regDelete_other (reg : Registry) (tid tid2 : String)
    (h : tid2 ≠ tid) : regLookup (regDelete reg tid) tid2 = regLookup reg tid2 := by
  induction reg with
  | nil => rfl
  | cons p rest ih =>
    by_cases hp : p.1 = tid
    · have hp2 : ¬ p.1 = tid2 := by
        rw [hp]
        exact fun hc => h hc.symm
      simp only [regDelete, List.filter] at ih ⊢
      rw [hp]
      simp only [decide_not, decide_True, Bool.not_true]
      simpa [regLookup, List.find?, hp2] using ih
    · simp only [regDelete, List.filter] at ih ⊢
      simp only [decide_not]
      rw [decide_eq_false hp]
      by_cases hq : p.1 = tid2
      · simp [regLookup, List.find?, hq]
      · simpa [regLookup, List.find?, hq] using ih

theorem regDelete_sub (reg : Registry) (tid : String) :
    ∀ p ∈ regDelete reg tid, p ∈ reg := by
  intro p hp
  exact List.mem_of_mem_filter hp

theorem regDelete_key_ne (reg : Registry) (tid : String) :
    ∀ p ∈ regDelete reg tid, p.1 ≠ tid := by
  intro p hp
  have := List.of_mem_filter hp
  simpa using this

theorem list_tests_sub (reg : Registry) (limit : Nat) :
    ∀ v ∈ list_tests reg limit, ∃ p ∈ reg, p.2 = v := by
  intro v hv
  have h1 : v ∈ ((reg : List (String × TestResult)).map (fun p => p.2)).mergeSort
      (fun a b => decide (b.timestamp ≤ a.timestamp)) := List.mem_of_mem_take hv
  have h2 : v ∈ (reg : List (String × TestResult)).map (fun p => p.2) := by
    rwa [List.mem_mergeSort] at h1
  simpa using h2

/-! ## Orchestrator lemmas -/

theorem extOnly_nil : extOnly [] := by
  intro ev hev
  cases hev

theorem extOnly_single (nm : String) : extOnly [RunEvent.extCall nm] := by
  intro ev hev
  rw [List.mem_singleton] at hev
  exact ⟨nm, hev⟩

theorem extOnly_no_stepCall {l : List RunEvent} (h : extOnly l) (j : Nat) :
    RunEvent.stepCall j ∉ l := by
  intro hm
  rcases h _ hm with ⟨nm, hq⟩
  cases hq

theorem extOnly_no_setStatus {l : List RunEvent} (h : extOnly l) (s : TestStatus) :
    RunEvent.setStatus s ∉ l := by
  intro hm
  rcases h _ hm with ⟨nm, hq⟩
  cases hq

theorem extOnly_step1 (env : OrchEnv) (s : String) (r : TestResult) :
    extOnly (_step1 env s r).2 := by
  unfold _step1
  rcases h : env.tts s with e | a <;> simp only [h] <;> exact extOnly_single "tts"

theorem extOnly_step2 (env : OrchEnv) (r : TestResult) :
    extOnly (_step2 env r).2 := by
  unfold _step2
  rcases h : r.ttsAudioRef with _ | a <;> simp only [h]
  · exact extOnly_nil
  · rcases h2 : env.simulate a.file_path with e | m <;> simp only [h2] <;>
      exact extOnly_single "simulate"

theorem extOnly_step3 (env : OrchEnv) (r : TestResult) :
    extOnly (_step3 env r).2 := by
  unfold _step3
  rcases h : r.mockResponseAudioRef with _ | a <;> simp only [h]
  · exact extOnly_nil
  · rcases h2 : env.store a.file_path with e | fid <;> simp only [h2] <;>
      exact extOnly_single "store"

theorem extOnly_step4 (env : OrchEnv) (r : TestResult) :
    extOnly (_step4 env r).2 := by
  unfold _step4
  rcases h : r.mockResponseAudioRef with _ | a <;> simp only [h]
  · exact extOnly_nil
  · rcases h2 : env.transcribe a.file_path with e | tc <;> simp only [h2] <;>
      exact extOnly_single "transcribe"

theorem extOnly_step5 (env : OrchEnv) (r : TestResult) :
    extOnly (_step5 env r).2 := by
  unfold _step5
  by_cases h : r.transcribed_text = ""
  · rw [if_pos h]
    exact extOnly_nil
  · rw [if_neg h]
    rcases h2 : env.analyze r.original_script r.transcribed_text with e | a <;>
      simp only [h2] <;> exact extOnly_single "analyze"

theorem extOnly_step6 (r : TestResult) : extOnly (_step6 r).2 := by
  unfold _step6
  by_cases h : r.llm_analysis = ([] : AnalysisDict)
  · rw [if_pos h]
    exact extOnly_nil
  · rw [if_neg h]
    rcases h2 : pyFloat ((dictGet r.llm_analysis "accuracy_score").getD (PyVal.num 0))
      with _ | q <;> simp only [h2] <;> exact extOnly_nil

theorem pairsExt_nil : ∀ p ∈ ([] : List (Nat × List RunEvent)), extOnly p.2 := by
  intro p hp
  cases hp

theorem pairsExt_cons {n : Nat} {l : List RunEvent} {rest : List (Nat × List RunEvent)}
    (h1 : extOnly l) (h2 : ∀ p ∈ rest, extOnly p.2) :
    ∀ p ∈ ((n, l) :: rest : List (Nat × List RunEvent)), extOnly p.2 := by
  intro p hp
  rcases List.mem_cons.mp hp with h | h
  · subst h
    exact h1
  · exact h2 p h

theorem stepCall_mem_stepLog (pairs : List (Nat × List RunEvent))
    (hext : ∀ p ∈ pairs, extOnly p.2) (j : Nat) :
    RunEvent.stepCall j ∈ stepLog pairs ↔ j ∈ pairs.map Prod.fst := by
  induction pairs with
  | nil => simp [stepLog]
  | cons p rest ih =>
    rcases p with ⟨n, l⟩
    have hl : extOnly l := hext (n, l) (List.mem_cons_self _ _)
    have hrest : ∀ q ∈ rest, extOnly q.2 := fun q hq => hext q (List.mem_cons_of_mem _ hq)
    simp only [stepLog, List.mem_cons, List.mem_append, List.map_cons]
    rw [← ih hrest]
    constructor
    · rintro (h | h | h)
      · cases h
        exact Or.inl rfl
      · exact absurd h (extOnly_no_stepCall hl j)
      · exact Or.inr h
    · rintro (h | h)
      · subst h
        exact Or.inl rfl
      · exact Or.inr (Or.inr h)

theorem setStatus_nmem_stepLog (pairs : List (Nat × List RunEvent))
    (hext : ∀ p ∈ pairs, extOnly p.2) (s : TestStatus) :
    RunEvent.setStatus s ∉ stepLog pairs := by
  induction pairs with
  | nil => simp [stepLog]
  | cons p rest ih =>
    rcases p with ⟨n, l⟩
    have hl : extOnly l := hext (n, l) (List.mem_cons_self _ _)
    have hrest : ∀ q ∈ rest, extOnly q.2 := fun q hq => hext q (List.mem_cons_of_mem _ hq)
    simp only [stepLog, List.mem_cons, List.mem_append]
    rintro (h | h | h)
    · cases h
    · exact extOnly_no_setStatus hl s h
    · exact ih hrest h

theorem runUpTo_succ (env : OrchEnv) (k : Nat) (r r2 : TestResult)
    (h : runUpTo env k r = Except.ok r2) :
    runUpTo env (k + 1) r = stepFun env (k + 1) r2 := by
  simp [runUpTo, h, Except.bind]

/-- Dichotomy of one orchestrator step sequence: either every step succeeds
and the pure six-step chain reaches the same final accumulator, or there is a
first failing step k, the chain before k reaches the accumulator the run
stopped at, exactly the steps up to k were entered, and in both cases the
step-level event log holds no status write. -/
theorem run_master (env : OrchEnv) (r : TestResult) :
    (∃ rf l, runSeq (stepsOf env) r = (none, rf, l) ∧
        runUpTo env 6 r = Except.ok rf ∧
        (∀ j, RunEvent.stepCall j ∈ l ↔ (1 ≤ j ∧ j ≤ 6)) ∧
        (∀ s, RunEvent.setStatus s ∉ l)) ∨
    (∃ k e rl l, runSeq (stepsOf env) r = (some e, rl, l) ∧
        firstFailAt env r k e ∧
        (∀ j, RunEvent.stepCall j ∈ l ↔ (1 ≤ j ∧ j ≤ k)) ∧
        (∀ s, RunEvent.setStatus s ∉ l)) := by
  have hup0 : runUpTo env 0 r = Except.ok r := rfl
  have hx1 := extOnly_step1 env r.original_script r
  rcases h1 : _step1 env r.original_script r with ⟨exc1 | r1, l1⟩ <;> rw [h1] at hx1
  case mk.error =>
    have hext := pairsExt_cons (n := 1) hx1 pairsExt_nil
    refine Or.inr ⟨1, exc1, r, stepLog [(1, l1)], ?_,
      ⟨le_refl 1, by norm_num, r, hup0, by simp only [stepFun, h1]⟩,
      fun j => ?_, fun s => setStatus_nmem_stepLog _ hext s⟩
    · simp only [stepsOf, runSeq, h1, stepLog, List.append_nil]
    · rw [stepCall_mem_stepLog _ hext j]
      simp only [List.map_cons, List.map_nil, List.mem_cons, List.not_mem_nil, or_false]
      omega
  case mk.ok =>
  have hup1 : runUpTo env 1 r = Except.ok r1 := by
    rw [runUpTo_succ env 0 r r hup0]
    simp only [stepFun, h1]
  have hx2 := extOnly_step2 env r1
  rcases h2 : _step2 env r1 with ⟨exc2 | r2, l2⟩ <;> rw [h2] at hx2
  case mk.error =>
    have hext := pairsExt_cons (n := 1) hx1 (pairsExt_cons (n := 2) hx2 pairsExt_nil)
    refine Or.inr ⟨2, exc2, r1, stepLog [(1, l1), (2, l2)], ?_,
      ⟨by norm_num, by norm_num, r1, hup1, by simp only [stepFun, h2]⟩,
      fun j => ?_, fun s => setStatus_nmem_stepLog _ hext s⟩
    · simp only [stepsOf, runSeq, h1, h2, stepLog, List.append_nil]
    · rw [stepCall_mem_stepLog _ hext j]
      simp only [List.map_cons, List.map_nil, List.mem_cons, List.not_mem_nil, or_false]
      omega
  case mk.ok =>
  have hup2 : runUpTo env 2 r = Except.ok r2 := by
    rw [runUpTo_succ env 1 r r1 hup1]
    simp only [stepFun, h2]
  have hx3 := extOnly_step3 env r2
  rcases h3 : _step3 env r2 with ⟨exc3 | r3, l3⟩ <;> rw [h3] at hx3
  case mk.error =>
    have hext := pairsExt_cons (n := 1) hx1 (pairsExt_cons (n := 2) hx2
      (pairsExt_cons (n := 3) hx3 pairsExt_nil))
    refine Or.inr ⟨3, exc3, r2, stepLog [(1, l1), (2, l2), (3, l3)], ?_,
      ⟨by norm_num, by norm_num, r2, hup2, by simp only [stepFun, h3]⟩,
      fun j => ?_, fun s => setStatus_nmem_stepLog _ hext s⟩
    · simp only [stepsOf, runSeq, h1, h2, h3, stepLog, List.append_nil]
    · rw [stepCall_mem_stepLog _ hext j]
      simp only [List.map_cons, List.map_nil, List.mem_cons, List.not_mem_nil, or_false]
      omega
  case mk.ok =>
  have hup3 : runUpTo env 3 r = Except.ok r3 := by
    rw [runUpTo_succ env 2 r r2 hup2]
    simp only [stepFun, h3]
  have hx4 := extOnly_step4 env r3
  rcases h4 : _step4 env r3 with ⟨exc4 | r4, l4⟩ <;> rw [h4] at hx4
  case mk.error =>
    have hext := pairsExt_cons (n := 1) hx1 (pairsExt_cons (n := 2) hx2
      (pairsExt_cons (n := 3) hx3 (pairsExt_cons (n := 4) hx4 pairsExt_nil)))
    refine Or.inr ⟨4, exc4, r3, stepLog [(1, l1), (2, l2), (3, l3), (4, l4)], ?_,
      ⟨by norm_num, by norm_num, r3, hup3, by simp only [stepFun, h4]⟩,
      fun j => ?_, fun s => setStatus_nmem_stepLog _ hext s⟩
    · simp only [stepsOf, runSeq, h1, h2, h3, h4, stepLog, List.append_nil]
    · rw [stepCall_mem_stepLog _ hext j]
      simp only [List.map_cons, List.map_nil, List.mem_cons, List.not_mem_nil, or_false]
      omega
  case mk.ok =>
  have hup4 : runUpTo env 4 r = Except.ok r4 := by
    rw [runUpTo_succ env 3 r r3 hup3]
    simp only [stepFun, h4]
  have hx5 := extOnly_step5 env r4
  rcases h5 : _step5 env r4 with ⟨exc5 | r5, l5⟩ <;> rw [h5] at hx5
  case mk.error =>
    have hext := pairsExt_cons (n := 1) hx1 (pairsExt_cons (n := 2) hx2
      (pairsExt_cons (n := 3) hx3 (pairsExt_cons (n := 4) hx4
        (pairsExt_cons (n := 5) hx5 pairsExt_nil))))
    refine Or.inr ⟨5, exc5, r4, stepLog [(1, l1), (2, l2), (3, l3), (4, l4), (5, l5)], ?_,
      ⟨by norm_num, by norm_num, r4, hup4, by simp only [stepFun, h5]⟩,
      fun j => ?_, fun s => setStatus_nmem_stepLog _ hext s⟩
    · simp only [stepsOf, runSeq, h1, h2, h3, h4, h5, stepLog, List.append_nil]
    · rw [stepCall_mem_stepLog _ hext j]
      simp only [List.map_cons, List.map_nil, List.mem_cons, List.not_mem_nil, or_false]
      omega
  case mk.ok =>
  have hup5 : runUpTo env 5 r = Except.ok r5 := by
    rw [runUpTo_succ env 4 r r4 hup4]
    simp only [stepFun, h5]
  have hx6 := extOnly_step6 r5
  rcases h6 : _step6 r5 with ⟨exc6 | r6, l6⟩ <;> rw [h6] at hx6
  case mk.error =>
    have hext := pairsExt_cons (n := 1) hx1 (pairsExt_cons (n := 2) hx2
      (pairsExt_cons (n := 3) hx3 (pairsExt_cons (n := 4) hx4
        (pairsExt_cons (n := 5) hx5 (pairsExt_cons (n := 6) hx6 pairsExt_nil)))))
    refine Or.inr ⟨6, exc6, r5,
      stepLog [(1, l1), (2, l2), (3, l3), (4, l4), (5, l5), (6, l6)], ?_,
      ⟨by norm_num, by norm_num, r5, hup5, by simp only [stepFun, h6]⟩,
      fun j => ?_, fun s => setStatus_nmem_stepLog _ hext s⟩
    · simp only [stepsOf, runSeq, h1, h2, h3, h4, h5, h6, stepLog, List.append_nil]
    · rw [stepCall_mem_stepLog _ hext j]
      simp only [List.map_cons, List.map_nil, List.mem_cons, List.not_mem_nil, or_false]
      omega
  case mk.ok =>
  have hup6 : runUpTo env 6 r = Except.ok r6 := by
    rw [runUpTo_succ env 5 r r5 hup5]
    simp only [stepFun, h6]
  have hext := pairsExt_cons (n := 1) hx1 (pairsExt_cons (n := 2) hx2
    (pairsExt_cons (n := 3) hx3 (pairsExt_cons (n := 4) hx4
      (pairsExt_cons (n := 5) hx5 (pairsExt_cons (n := 6) hx6 pairsExt_nil)))))
  refine Or.inl ⟨r6, stepLog [(1, l1), (2, l2), (3, l3), (4, l4), (5, l5), (6, l6)], ?_,
    hup6, fun j => ?_, fun s => setStatus_nmem_stepLog _ hext s⟩
  · simp only [stepsOf, runSeq, h1, h2, h3, h4, h5, h6, stepLog, List.append_nil]
  · rw [stepCall_mem_stepLog _ hext j]
    simp only [List.map_cons, List.map_nil, List.mem_cons, List.not_mem_nil, or_false]
    omega

theorem runUpTo_ok_mono (env : OrchEnv) (m' : Nat) :
    ∀ (m : Nat) (r x : TestResult), runUpTo env m r = Except.ok x → m' ≤ m →
      ∃ y, runUpTo env m' r = Except.ok y := by
  intro m
  induction m with
  | zero =>
    intro r x h hle
    have hz : m' = 0 := Nat.le_zero.mp hle
    subst hz
    exact ⟨r, rfl⟩
  | succ m ih =>
    intro r x h hle
    rcases Nat.lt_or_ge m' (m + 1) with hlt | hge
    · have h2 : (runUpTo env m r).bind (stepFun env (m + 1)) = Except.ok x := h
      rcases (except_bind_ok _ _ _).mp h2 with ⟨y, hy, _⟩
      exact ih r y hy (Nat.lt_succ_iff.mp hlt)
    · have hm : m' = m + 1 := le_antisymm hle hge
      subst hm
      exact ⟨x, h⟩

theorem firstFail_runUpTo_err (env : OrchEnv) (r : TestResult) (k : Nat) (e : String)
    (hf : firstFailAt env r k e) : runUpTo env k r = Except.error e := by
  rcases hf with ⟨hk1, _, r2, hpre, hstep⟩
  have hk : k = (k - 1) + 1 := by omega
  rw [hk, runUpTo_succ env (k - 1) r r2 hpre, show (k - 1) + 1 = k from by omega, hstep]

theorem firstFail_not_ok (env : OrchEnv) (r : TestResult) (k : Nat) (e : String)
    (x : TestResult) (hf : firstFailAt env r k e) (h : runUpTo env 6 r = Except.ok x) :
    False := by
  have herr := firstFail_runUpTo_err env r k e hf
  rcases runUpTo_ok_mono env k 6 r x h hf.2.1 with ⟨y, hy⟩
  rw [herr] at hy
  cases hy

theorem firstFail_unique (env : OrchEnv) (r : TestResult) (k k' : Nat) (e e' : String)
    (h : firstFailAt env r k e) (h' : firstFailAt env r k' e') : k = k' ∧ e = e' := by
  have key : ∀ a b ea eb, firstFailAt env r a ea → firstFailAt env r b eb → a ≤ b := by
    intro a b ea eb ha hb
    by_contra hab
    push_neg at hab
    have hberr := firstFail_runUpTo_err env r b eb hb
    rcases ha with ⟨ha1, _, ra, hpra, _⟩
    have hble : b ≤ a - 1 := by omega
    rcases runUpTo_ok_mono env b (a - 1) r ra hpra hble with ⟨y, hy⟩
    rw [hberr] at hy
    cases hy
  have hkk : k = k' := le_antisymm (key k k' e e' h h') (key k' k e' e h' h)
  subst hkk
  rcases h with ⟨_, _, r2, hpre, hstep⟩
  rcases h' with ⟨_, _, r2', hpre', hstep'⟩
  rw [hpre] at hpre'
  have hr2 : r2 = r2' := by
    simpa using hpre'
  subst hr2
  rw [hstep] at hstep'
  have he : e = e' := by
    simpa using hstep'
  exact ⟨rfl, he⟩

theorem run_full_test_empty (env : OrchEnv) (r0 : TestResult)
    (h : r0.original_script = "") :
    run_full_test env r0 =
      (failedWith { r0 with status := TestStatus.running } "測試結果物件中缺少原始腳本",
       [RunEvent.setStatus TestStatus.running, RunEvent.setStatus TestStatus.failed]) := by
  simp only [run_full_test]
  rw [if_pos (show ({ r0 with status := TestStatus.running } :
    TestResult).original_script = "" from h)]

theorem run_full_test_fail_case (env : OrchEnv) (r0 : TestResult) (e : String)
    (rl : TestResult) (l : List RunEvent) (h : ¬ r0.original_script = "")
    (hrs : runSeq (stepsOf env) { r0 with status := TestStatus.running } = (some e, rl, l)) :
    run_full_test env r0 = (failedWith rl e,
      RunEvent.setStatus TestStatus.running ::
        (l ++ [RunEvent.setStatus TestStatus.failed])) := by
  simp only [run_full_test]
  rw [if_neg (show ¬ ({ r0 with status := TestStatus.running } :
    TestResult).original_script = "" from h), hrs]

theorem run_full_test_ok_case (env : OrchEnv) (r0 : TestResult)
    (rf : TestResult) (l : List RunEvent) (h : ¬ r0.original_script = "")
    (hrs : runSeq (stepsOf env) { r0 with status := TestStatus.running } = (none, rf, l)) :
    run_full_test env r0 = ({ rf with status := TestStatus.completed },
      RunEvent.setStatus TestStatus.running ::
        (l ++ [RunEvent.setStatus TestStatus.completed])) := by
  simp only [run_full_test]
  rw [if_neg (show ¬ ({ r0 with status := TestStatus.running } :
    TestResult).original_script = "" from h), hrs]

/-! ## Claim C1: step failures are absorbed -/

/-- C1: run_full_test is a total function of the step outcomes (it never
raises to its caller); whenever the six-step sequence first fails at step k
with message e, the resulting accumulator has status FAILED and error_message
e, and exactly the steps up to k were entered — no later step executes. -/
theorem orchestrator_absorbs_step_failures :
    ∀ (env : OrchEnv) (r0 : TestResult) (k : Nat) (e : String),
      ¬ r0.original_script = "" →
      firstFailAt env { r0 with status := TestStatus.running } k e →
      (run_full_test env r0).1.status = TestStatus.failed ∧
      (run_full_test env r0).1.error_message = some e ∧
      (∀ j, RunEvent.stepCall j ∈ (run_full_test env r0).2 ↔ (1 ≤ j ∧ j ≤ k)) := by
  intro env r0 k e hs hf
  rcases run_master env { r0 with status := TestStatus.running } with
    ⟨rf, l, hrs, hok, _, _⟩ | ⟨k', e', rl, l, hrs, hff, hsc, hss⟩
  · exact (firstFail_not_ok env _ k e rf hf hok).elim
  · obtain ⟨hkk, hee⟩ := firstFail_unique env _ k' k e' e hff hf
    subst hkk
    subst hee
    rw [run_full_test_fail_case env r0 e' rl l hs hrs]
    refine ⟨rfl, rfl, ?_⟩
    intro j
    simp only [List.mem_cons, List.mem_append, List.not_mem_nil, or_false]
    constructor
    · rintro (hc | hc | hc)
      · cases hc
      · exact (hsc j).mp hc
      · cases hc
    · intro hj
      exact Or.inr (Or.inl ((hsc j).mpr hj))

theorem orchestrator_absorbs_witness :
    (run_full_test demoEnvFail demoJob).1.status = TestStatus.failed ∧
    (run_full_test demoEnvFail demoJob).1.error_message = some "boom" :=
  let h := orchestrator_absorbs_step_failures demoEnvFail demoJob 2 "boom" (by decide)
    ⟨by norm_num, by norm_num, _, rfl, rfl⟩
  ⟨h.1, h.2.1⟩

/-! ## Claim C2: status lifecycle -/

/-- C2: a newly created accumulator starts PENDING; run_full_test writes
RUNNING first and exactly once, before any step; the run ends in a terminal
status which is the last and only other status write; COMPLETED is reached
exactly when the script is present and all six steps succeed (FAILED
otherwise); and the registry operations never modify a stored accumulator —
they at most remove entries, so no operation moves a job out of a terminal
state. -/
theorem status_lifecycle_invariant :
    (∀ (tid : String) (ts : Int) (s : String),
        (mkTestResult tid ts s).status = TestStatus.pending) ∧
    (∀ (env : OrchEnv) (r0 : TestResult), ∃ l,
        (run_full_test env r0).2 =
          RunEvent.setStatus TestStatus.running ::
            (l ++ [RunEvent.setStatus (run_full_test env r0).1.status]) ∧
        (∀ s, RunEvent.setStatus s ∉ l)) ∧
    (∀ (env : OrchEnv) (r0 : TestResult),
        (run_full_test env r0).1.status = TestStatus.completed ∨
        (run_full_test env r0).1.status = TestStatus.failed) ∧
    (∀ (env : OrchEnv) (r0 : TestResult),
        (run_full_test env r0).1.status = TestStatus.completed ↔
          (¬ r0.original_script = "" ∧ ∃ rf,
            runUpTo env 6 { r0 with status := TestStatus.running } = Except.ok rf)) ∧
    (∀ (reg : Registry) (cutoff : Int) (p : String × TestResult),
        p ∈ (cleanup_old_tests reg cutoff).1 → p ∈ reg) ∧
    (∀ (reg : Registry) (tid : String) (p : String × TestResult),
        p ∈ (delete_test reg tid).1 → p ∈ reg) := by
  refine ⟨fun tid ts s => rfl, ?_, ?_, ?_, ?_, ?_⟩
  · intro env r0
    by_cases hs : r0.original_script = ""
    · rw [run_full_test_empty env r0 hs]
      exact ⟨[], rfl, fun s => by simp⟩
    · rcases run_master env { r0 with status := TestStatus.running } with
        ⟨rf, l, hrs, _, _, hss⟩ | ⟨k, e, rl, l, hrs, _, _, hss⟩
      · rw [run_full_test_ok_case env r0 rf l hs hrs]
        exact ⟨l, rfl, hss⟩
      · rw [run_full_test_fail_case env r0 e rl l hs hrs]
        exact ⟨l, rfl, hss⟩
  · intro env r0
    by_cases hs : r0.original_script = ""
    · rw [run_full_test_empty env r0 hs]
      exact Or.inr rfl
    · rcases run_master env { r0 with status := TestStatus.running } with
        ⟨rf, l, hrs, _, _, _⟩ | ⟨k, e, rl, l, hrs, _, _, _⟩
      · rw [run_full_test_ok_case env r0 rf l hs hrs]
        exact Or.inl rfl
      · rw [run_full_test_fail_case env r0 e rl l hs hrs]
        exact Or.inr rfl
  · intro env r0
    by_cases hs : r0.original_script = ""
    · rw [run_full_test_empty env r0 hs]
      constructor
      · intro hc
        exact TestStatus.noConfusion hc
      · rintro ⟨hns, _⟩
        exact absurd hs hns
    · rcases run_master env { r0 with status := TestStatus.running } with
        ⟨rf, l, hrs, hok, _, _⟩ | ⟨k, e, rl, l, hrs, hff, _, _⟩
      · rw [run_full_test_ok_case env r0 rf l hs hrs]
        exact ⟨fun _ => ⟨hs, rf, hok⟩, fun _ => rfl⟩
      · rw [run_full_test_fail_case env r0 e rl l hs hrs]
        constructor
        · intro hc
          exact TestStatus.noConfusion hc
        · rintro ⟨_, rf, hok⟩
          exact (firstFail_not_ok env _ k e rf hff hok).elim
  · intro reg cutoff p hp
    unfold cleanup_old_tests at hp
    exact List.mem_of_mem_filter hp
  · intro reg tid p hp
    unfold delete_test at hp
    rcases hl : regLookup reg tid with _ | rj <;> simp only [hl] at hp
    · exact hp
    · by_cases hr : rj.status = TestStatus.running
      · rw [if_pos hr] at hp
        exact hp
      · rw [if_neg hr] at hp
        exact regDelete_sub reg tid p hp

theorem status_lifecycle_witness :
    (mkTestResult "w2" 0 "customer: hi").status = TestStatus.pending :=
  status_lifecycle_invariant.1 "w2" 0 "customer: hi"

/-! ## Claim C5: empty transcript completes with score 0 without scoring -/

theorem c5_core (env : OrchEnv) (rU : TestResult) (a m : AudioFile) (fid : String)
    (conf : ℚ) (htts : env.tts rU.original_script = Except.ok a)
    (hsim : env.simulate a.file_path = Except.ok m)
    (hsto : env.store m.file_path = Except.ok fid)
    (htr : env.transcribe m.file_path = Except.ok ("", conf)) :
    runSeq (stepsOf env) rU =
      (none,
       { rU with ttsAudioRef := some a, mockResponseAudioRef := some m, transcribed_text := "", llm_analysis := [], accuracy_score := 0 },
       [RunEvent.stepCall 1, RunEvent.extCall "tts", RunEvent.stepCall 2,
        RunEvent.extCall "simulate", RunEvent.stepCall 3, RunEvent.extCall "store",
        RunEvent.stepCall 4, RunEvent.extCall "transcribe", RunEvent.stepCall 5,
        RunEvent.stepCall 6]) := by
  simp [stepsOf, runSeq, _step1, _step2, _step3, _step4, _step5, _step6,
    htts, hsim, hsto, htr, dictGet]

/-- C5: when steps one through four succeed and the transcription step
records empty transcribed text, the scorer is never invoked, an empty
analysis is recorded, the job reaches COMPLETED (not FAILED), and the final
accuracy score is 0. -/
theorem empty_transcript_completes_skipping_scorer :
    ∀ (env : OrchEnv) (r0 : TestResult) (a m : AudioFile) (fid : String) (conf : ℚ),
      ¬ r0.original_script = "" →
      env.tts r0.original_script = Except.ok a →
      env.simulate a.file_path = Except.ok m →
      env.store m.file_path = Except.ok fid →
      env.transcribe m.file_path = Except.ok ("", conf) →
      (run_full_test env r0).1.status = TestStatus.completed ∧
      (run_full_test env r0).1.accuracy_score = 0 ∧
      (run_full_test env r0).1.llm_analysis = ([] : AnalysisDict) ∧
      RunEvent.extCall "analyze" ∉ (run_full_test env r0).2 := by
  intro env r0 a m fid conf hs htts hsim hsto htr
  have hrs := c5_core env { r0 with status := TestStatus.running } a m fid conf
    htts hsim hsto htr
  rw [run_full_test_ok_case env r0 _ _ hs hrs]
  refine ⟨rfl, rfl, rfl, ?_⟩
  show RunEvent.extCall "analyze" ∉ RunEvent.setStatus TestStatus.running ::
    ([RunEvent.stepCall 1, RunEvent.extCall "tts", RunEvent.stepCall 2,
      RunEvent.extCall "simulate", RunEvent.stepCall 3, RunEvent.extCall "store",
      RunEvent.stepCall 4, RunEvent.extCall "transcribe", RunEvent.stepCall 5,
      RunEvent.stepCall 6] ++ [RunEvent.setStatus TestStatus.completed])
  decide

theorem empty_transcript_witness :
    (run_full_test demoEnvSkip demoJob).1.status = TestStatus.completed ∧
    RunEvent.extCall "analyze" ∉ (run_full_test demoEnvSkip demoJob).2 :=
  let h := empty_transcript_completes_skipping_scorer demoEnvSkip demoJob demoAudioA
    demoAudioB "fid" 1 (by decide) rfl rfl rfl rfl
  ⟨h.1, h.2.2.2⟩

/-! ## Claim C10: successful transcription is non-empty with confidence 1 -/

/-- C10: whenever STTService.transcribe_audio returns successfully, the
returned transcript is non-empty (an empty backend transcription raises
instead of being returned) and the returned confidence is exactly 1.0; and
any step-4 transcription call whose collaborator has this non-empty property
never stores empty transcribed text on the accumulator. -/
theorem stt_success_nonempty_confidence_one :
    (∀ (env : STTEnv) (path : String) (t : String) (c : ℚ),
        transcribeAudioFile env path = Except.ok (t, c) → t ≠ "" ∧ c = 1) ∧
    (∀ (env : OrchEnv) (r r2 : TestResult),
        (∀ p tc, env.transcribe p = Except.ok tc → tc.1 ≠ "") →
        (_step4 env r).1 = Except.ok r2 → r2.transcribed_text ≠ "") := by
  constructor
  · intro env path t c h
    unfold transcribeAudioFile at h
    split at h
    · exact absurd h (by simp)
    · split at h
      · exact absurd h (by simp)
      · split at h
        · exact absurd h (by simp)
        · rcases hb : env.backend path with e | t0 <;> rw [hb] at h
          · exact absurd h (by simp)
          · simp only [] at h
            split at h
            · exact absurd h (by simp)
            · rename_i hne
              rw [Except.ok.injEq, Prod.mk.injEq] at h
              refine ⟨?_, h.2.symm⟩
              rw [← h.1]
              exact hne
  · intro env r r2 hne h
    unfold _step4 at h
    rcases hm : r.mockResponseAudioRef with _ | a <;> simp only [hm] at h
    · exact absurd h (by simp)
    · rcases hb : env.transcribe a.file_path with e | tc <;> simp only [hb] at h
      · exact absurd h (by simp)
      · simp only [Except.ok.injEq] at h
        rw [← h]
        exact hne a.file_path tc hb

theorem stt_success_witness : "你好" ≠ "" ∧ (1 : ℚ) = 1 :=
  stt_success_nonempty_confidence_one.1 sttDemoEnv "a.mp3" "你好" 1 rfl

/-! ## Claim C7: empty script rejected before job creation -/

/-- C7: with the orchestrator ready, submitting an empty or whitespace-only
script fails before any accumulator is constructed: the call returns the
validation rejection (rewrapped to a 500 by the catch-all clause, with the
validation message retained) and the registry is returned unchanged, same
size and same keys. -/
theorem submit_empty_script_rejected :
    ∀ (reg : Registry) (script newId : String) (now : Int),
      pyStripStr script = "" →
      start_test true reg script newId now =
        (reg, Except.error ⟨500, "系統錯誤: 400: 測試腳本不能為空"⟩) := by
  intro reg script newId now h
  unfold start_test
  rw [if_neg (by simp), if_pos h]
  rfl

theorem submit_empty_script_witness :
    start_test true [] "   \n " "id1" 0 =
      ([], Except.error ⟨500, "系統錯誤: 400: 測試腳本不能為空"⟩) :=
  submit_empty_script_rejected [] "   \n " "id1" 0 (by decide)

/-! ## Claim C4: score clamping -/

theorem parse_ok_score (resp : LLMRawResponse) (d : AnalysisDict)
    (h : parse_analysis_response resp = Except.ok d) :
    ∃ q, dictGet d "accuracy_score" = some (PyVal.num q) ∧ 0 ≤ q ∧ q ≤ 100 := by
  cases resp with
  | malformed emsg =>
    simp only [parse_analysis_response, Except.ok.injEq] at h
    refine ⟨0, ?_, le_refl 0, by norm_num⟩
    rw [← h]
    simp [degradedDict, dictGet, List.find?]
  | nonObj => exact absurd h (by simp [parse_analysis_response])
  | obj es =>
    simp only [parse_analysis_response] at h
    rcases hq : pyFloat ((dictGet (withDefaults es) "accuracy_score").getD (PyVal.num 0))
      with _ | q0 <;> rw [hq] at h <;> simp only [Except.ok.injEq] at h
    · refine ⟨0, ?_, le_refl 0, by norm_num⟩
      rw [← h]
      simp [degradedDict, dictGet, List.find?]
    · refine ⟨max 0 (min 100 q0), ?_, le_max_left 0 _, ?_⟩
      · rw [← h]
        exact dictGet_dictSet _ _ _
      · exact max_le (by norm_num) (min_le_left 100 q0)

theorem step6_empty_analysis (r : TestResult)
    (h : r.llm_analysis = ([] : AnalysisDict)) :
    (_step6 r).1 = Except.ok { r with accuracy_score := 0 } := by
  unfold _step6
  rw [if_pos h]

theorem step6_stores_raw (r : TestResult) (q : ℚ)
    (h : ¬ r.llm_analysis = ([] : AnalysisDict))
    (h2 : dictGet r.llm_analysis "accuracy_score" = some (PyVal.num q)) :
    (_step6 r).1 = Except.ok { r with accuracy_score := q } := by
  unfold _step6
  rw [if_neg h, h2]
  rfl

/-- C4 as stated is false: the Finalize step stores the analysis's score
without clamping, so an out-of-range value in llm_analysis is stored outside
the interval from 0 to 100. -/
theorem finalize_unclamped_counterexample :
    (_step6 c4Input).1 = Except.ok { c4Input with accuracy_score := 150 } ∧
    ¬ ({ c4Input with accuracy_score := (150 : ℚ) }.accuracy_score ≤ 100) := by
  constructor
  · rfl
  · norm_num

/-- C4 amended: the Finalize step stores the analysis's numeric accuracy
score as-is, without clamping (and 0 when the analysis dict is empty); the
clamp to the interval from 0 to 100 is applied earlier, inside the scorer's
response parsing, so every analysis dict the scoring service can produce
carries an in-range score, and consequently the final score stored at step 6
for a parser-produced analysis always lies in that interval. -/
theorem finalize_score_clamped_upstream :
    (∀ (resp : LLMRawResponse) (d : AnalysisDict),
        parse_analysis_response resp = Except.ok d →
        ∃ q, dictGet d "accuracy_score" = some (PyVal.num q) ∧ 0 ≤ q ∧ q ≤ 100) ∧
    (∀ r : TestResult, r.llm_analysis = ([] : AnalysisDict) →
        (_step6 r).1 = Except.ok { r with accuracy_score := 0 }) ∧
    (∀ (r : TestResult) (q : ℚ), ¬ r.llm_analysis = ([] : AnalysisDict) →
        dictGet r.llm_analysis "accuracy_score" = some (PyVal.num q) →
        (_step6 r).1 = Except.ok { r with accuracy_score := q }) ∧
    (∀ (r : TestResult) (resp : LLMRawResponse) (d : AnalysisDict),
        parse_analysis_response resp = Except.ok d →
        ∃ r2, (_step6 { r with llm_analysis := d }).1 = Except.ok r2 ∧
          0 ≤ r2.accuracy_score ∧ r2.accuracy_score ≤ 100) := by
  refine ⟨parse_ok_score, step6_empty_analysis, step6_stores_raw, ?_⟩
  intro r resp d h
  obtain ⟨q, hget, hq0, hq100⟩ := parse_ok_score resp d h
  refine ⟨{ r with llm_analysis := d, accuracy_score := q }, ?_, hq0, hq100⟩
  have hne : ¬ ({ r with llm_analysis := d } : TestResult).llm_analysis =
      ([] : AnalysisDict) := by
    simp only []
    exact dictGet_ne_nil hget
  have := step6_stores_raw { r with llm_analysis := d } q hne (by simpa using hget)
  simpa using this

theorem finalize_clamped_witness :
    ∃ q, dictGet (degradedDict "x") "accuracy_score" = some (PyVal.num q) ∧
      0 ≤ q ∧ q ≤ 100 :=
  finalize_score_clamped_upstream.1 (LLMRawResponse.malformed "x") (degradedDict "x") rfl

/-! ## Claim C3: cleanup eviction policy -/

/-- C3 as stated is false: cleanup removes an old PENDING job, though the
claim says a PENDING job is never removed regardless of age. -/
theorem cleanup_evicts_pending_counterexample :
    oldPendingJob.status = TestStatus.pending ∧ oldPendingJob.timestamp < 5 ∧
    (cleanup_old_tests [("p1", oldPendingJob)] 5).1 = [] := by
  refine ⟨rfl, by norm_num [oldPendingJob, mkTestResult], rfl⟩

/-- C3 amended: cleanup removes exactly the jobs that are not RUNNING
(terminal or PENDING alike) and older than the cutoff; only a RUNNING job is
never removed, regardless of its age. -/
theorem cleanup_removes_non_running_older :
    ∀ (reg : Registry) (cutoff : Int),
      ((reg : List (String × TestResult)).map Prod.fst).Nodup →
      ∀ p, p ∈ (cleanup_old_tests reg cutoff).1 ↔
        (p ∈ reg ∧ (p.2.status = TestStatus.running ∨ cutoff ≤ p.2.timestamp)) := by
  intro reg cutoff hnd p
  unfold cleanup_old_tests
  simp only [List.mem_filter, decide_eq_true_eq]
  constructor
  · rintro ⟨hmem, hnot⟩
    refine ⟨hmem, ?_⟩
    by_contra hcon
    push_neg at hcon
    refine hnot ?_
    simp only [List.mem_map, List.mem_filter, decide_eq_true_eq]
    refine ⟨p, ⟨hmem, hcon.1, ?_⟩, rfl⟩
    have := hcon.2
    omega
  · rintro ⟨hmem, hcond⟩
    refine ⟨hmem, ?_⟩
    intro hin
    simp only [List.mem_map, List.mem_filter, decide_eq_true_eq] at hin
    rcases hin with ⟨q, ⟨hq, hcnd⟩, hkey⟩
    have hqp : q = p := List.inj_on_of_nodup_map hnd hq hmem hkey
    subst hqp
    rcases hcond with hrun | hts
    · exact hcnd.1 hrun
    · have := hcnd.2
      omega

theorem cleanup_policy_witness :
    ("r1", oldRunningJob) ∈ (cleanup_old_tests [("r1", oldRunningJob)] 5).1 ↔
      (("r1", oldRunningJob) ∈ ([("r1", oldRunningJob)] : Registry) ∧
        (oldRunningJob.status = TestStatus.running ∨ 5 ≤ oldRunningJob.timestamp)) :=
  cleanup_removes_non_running_older [("r1", oldRunningJob)] 5 (by decide)
    ("r1", oldRunningJob)

/-! ## Claim C9: delete of RUNNING conflicts, otherwise removes -/

/-- C9: for a known job id, delete fails with the conflict rejection and
leaves the registry unchanged when the job is RUNNING; for PENDING,
COMPLETED or FAILED it succeeds, removes the job, later lookups return
nothing, other jobs are untouched, and the listing no longer contains the
job. -/
theorem delete_conflict_or_removes :
    ∀ (reg : Registry) (tid : String) (r : TestResult) (limit : Nat),
      regWF reg → regLookup reg tid = some r →
      ((r.status = TestStatus.running →
          delete_test reg tid = (reg, Except.error ⟨400, "無法刪除正在執行中的測試"⟩)) ∧
       (¬ r.status = TestStatus.running →
          delete_test reg tid =
            (regDelete reg tid,
              Except.ok ("測試記錄已成功刪除", tid,
                (regDelete reg tid : List (String × TestResult)).length)) ∧
          regLookup (regDelete reg tid) tid = none ∧
          (∀ tid2, tid2 ≠ tid →
            regLookup (regDelete reg tid) tid2 = regLookup reg tid2) ∧
          (∀ v ∈ list_tests (regDelete reg tid) limit, v.test_id ≠ tid))) := by
  intro reg tid r limit hwf hlook
  constructor
  · intro hrun
    simp only [delete_test, hlook]
    rw [if_pos hrun]
  · intro hrun
    refine ⟨?_, regLookup_regDelete_self reg tid, fun tid2 h =>
      regLookup_regDelete_other reg tid tid2 h, ?_⟩
    · simp only [delete_test, hlook]
      rw [if_neg hrun]
    · intro v hv
      obtain ⟨p, hp, hpv⟩ := list_tests_sub (regDelete reg tid) limit v hv
      have h1 : p.2.test_id = p.1 := hwf p (regDelete_sub reg tid p hp)
      have h2 : p.1 ≠ tid := regDelete_key_ne reg tid p hp
      rw [← hpv, h1]
      exact h2

theorem delete_removes_witness :
    regLookup (regDelete doneJobReg "d1") "d1" = none :=
  ((delete_conflict_or_removes doneJobReg "d1"
      { mkTestResult "d1" 0 "customer: hi" with status := TestStatus.completed } 10
      (by intro p hp; simp only [doneJobReg, List.mem_singleton] at hp; subst hp; rfl)
      rfl).2
    (by decide)).2.1

/-! ## Claim C6: normalization and role labels -/

/-- C6 as a code bug, evaluated at the failing input: because whitespace
collapsing runs before the anchored role-label substitution, the newline
separating the two dialogue lines is gone when the MULTILINE pattern runs,
so only the first line's label is stripped; the scorer receives the text
"hello agent hi", which still contains the role label agent (its colon was
deleted by the punctuation stage). The claim expects every line's label
stripped, so the scorer would see "hello hi". -/
theorem normalize_keeps_later_role_labels :
    scorerInputs "customer: hello\nagent: hi" "customer: hello\nagent: hi" =
      some ("hello agent hi", "hello agent hi") ∧
    (normalize_text "customer: hello\nagent: hi").toList =
      "hello ".toList ++ "agent".toList ++ " hi".toList ∧
    ¬ (normalize_text "customer: hello\nagent: hi" = "hello hi") := by
  refine ⟨by decide, by decide, by decide⟩

/-! ## Claim C8: parser refinement lemmas -/

theorem pyStripList_cons_ws {c : Char} (h : isPySpace c = true) (l : List Char) :
    pyStripList (c :: l) = pyStripList l := by
  unfold pyStripList
  rw [List.dropWhile_cons_of_pos h]

theorem isPySpace_colon_false : isPySpace ':' = false := by decide

theorem firstColonSplit_cons_ne {c : Char} (hc : ¬ c = ':') (l : List Char) :
    firstColonSplit (c :: l) =
      match firstColonSplit l with
      | none => none
      | some (a, b) => some (c :: a, b) := by
  simp only [firstColonSplit, if_neg hc]

theorem parseLinePy_cons_ws {c : Char} (h : isPySpace c = true) (l : List Char) :
    parseLinePy (c :: l) = parseLinePy l := by
  have hc : ¬ c = ':' := by
    intro he
    subst he
    exact absurd h (by decide)
  unfold parseLinePy
  rw [firstColonSplit_cons_ne hc]
  rcases hfc : firstColonSplit l with _ | ⟨a, b⟩ <;> simp only [hfc]
  simp only [pyStripList_cons_ws h]

theorem dropWhile_append_of_eq_nil {p : Char → Bool} {l : List Char}
    (h : List.dropWhile p l = []) (m : List Char) :
    List.dropWhile p (l ++ m) = List.dropWhile p m := by
  induction l with
  | nil => rfl
  | cons x l ih =>
    by_cases hx : p x = true
    · rw [List.dropWhile_cons_of_pos hx] at h
      rw [List.cons_append, List.dropWhile_cons_of_pos hx]
      exact ih h
    · rw [List.dropWhile_cons_of_neg hx] at h
      cases h

theorem dropWhile_append_of_ne_nil {p : Char → Bool} {l : List Char}
    (h : ¬ List.dropWhile p l = []) (m : List Char) :
    List.dropWhile p (l ++ m) = List.dropWhile p l ++ m := by
  induction l with
  | nil => exact absurd rfl h
  | cons x l ih =>
    by_cases hx : p x = true
    · rw [List.dropWhile_cons_of_pos hx] at h
      simp only [List.cons_append, List.dropWhile_cons_of_pos hx]
      exact ih h
    · simp only [List.cons_append, List.dropWhile_cons_of_neg hx]

theorem pyStripList_append_ws {c : Char} (h : isPySpace c = true) (l : List Char) :
    pyStripList (l ++ [c]) = pyStripList l := by
  unfold pyStripList
  by_cases hnil : List.dropWhile isPySpace l = []
  · rw [dropWhile_append_of_eq_nil hnil [c], hnil]
    simp only [List.dropWhile_cons_of_pos h, List.dropWhile_nil, List.reverse_nil]
  · rw [dropWhile_append_of_ne_nil hnil [c], List.reverse_append]
    simp only [List.reverse_cons, List.reverse_nil, List.nil_append, List.singleton_append,
      List.dropWhile_cons_of_pos h]

theorem firstColonSplit_append_single {c : Char} (hc : ¬ c = ':') (l : List Char) :
    firstColonSplit (l ++ [c]) =
      match firstColonSplit l with
      | none => none
      | some (a, b) => some (a, b ++ [c]) := by
  induction l with
  | nil =>
    rw [List.nil_append, firstColonSplit_cons_ne hc]
    rfl
  | cons x l ih =>
    by_cases hx : x = ':'
    · subst hx
      rfl
    · rw [List.cons_append, firstColonSplit_cons_ne hx, ih, firstColonSplit_cons_ne hx]
      rcases hfc : firstColonSplit l with _ | ⟨a, b⟩ <;> simp only [hfc]

theorem parseLinePy_append_ws {c : Char} (h : isPySpace c = true) (l : List Char) :
    parseLinePy (l ++ [c]) = parseLinePy l := by
  have hc : ¬ c = ':' := by
    intro he
    subst he
    exact absurd h (by decide)
  unfold parseLinePy
  rw [firstColonSplit_append_single hc l]
  rcases hfc : firstColonSplit l with _ | ⟨a, b⟩ <;> simp only [hfc]
  simp only [pyStripList_append_ws h]

theorem parseLinePy_nil : parseLinePy [] = none := rfl

theorem splitNl_cons_nl (rest : List Char) :
    splitNl ('\n' :: rest) = [] :: splitNl rest := rfl

theorem splitNl_cons_ne {c : Char} (hc : ¬ c = '\n') (rest : List Char) :
    splitNl (c :: rest) =
      match splitNl rest with
      | [] => [[c]]
      | l :: ls => (c :: l) :: ls := by
  simp only [splitNl, if_neg hc]

theorem splitNl_ne_nil (cs : List Char) : ¬ splitNl cs = [] := by
  induction cs with
  | nil => simp [splitNl]
  | cons c cs ih =>
    by_cases hc : c = '\n'
    · subst hc
      rw [splitNl_cons_nl]
      simp
    · rw [splitNl_cons_ne hc]
      rcases h : splitNl cs with _ | ⟨l, ls⟩ <;> simp

theorem splitNl_append_nl (cs : List Char) :
    splitNl (cs ++ ['\n']) = splitNl cs ++ [[]] := by
  induction cs with
  | nil => rfl
  | cons c cs ih =>
    by_cases hc : c = '\n'
    · subst hc
      rw [List.cons_append, splitNl_cons_nl, ih, splitNl_cons_nl, List.cons_append]
    · rw [List.cons_append, splitNl_cons_ne hc, ih, splitNl_cons_ne hc]
      rcases h : splitNl cs with _ | ⟨l, ls⟩
      · exact absurd h (splitNl_ne_nil cs)
      · simp only [List.cons_append]

theorem splitNl_append_single {c : Char} (hc : ¬ c = '\n') (cs : List Char) :
    splitNl (cs ++ [c]) = appendLast c (splitNl cs) := by
  induction cs with
  | nil =>
    rw [List.nil_append, splitNl_cons_ne hc]
    rfl
  | cons x cs ih =>
    by_cases hx : x = '\n'
    · subst hx
      rw [List.cons_append, splitNl_cons_nl, ih, splitNl_cons_nl]
      rcases h : splitNl cs with _ | ⟨l, ls⟩
      · exact absurd h (splitNl_ne_nil cs)
      · rfl
    · rw [List.cons_append, splitNl_cons_ne hx, ih, splitNl_cons_ne hx]
      rcases h : splitNl cs with _ | ⟨l, ls⟩
      · exact absurd h (splitNl_ne_nil cs)
      · rcases ls with _ | ⟨l2, ls2⟩ <;> rfl

theorem filterMap_appendLast {c : Char}
    (h : ∀ l, parseLinePy (l ++ [c]) = parseLinePy l) :
    ∀ ls, ¬ ls = [] →
      List.filterMap parseLinePy (appendLast c ls) = List.filterMap parseLinePy ls := by
  intro ls
  induction ls with
  | nil => intro hn; exact absurd rfl hn
  | cons l ls ih =>
    intro _
    rcases ls with _ | ⟨l2, ls2⟩
    · simp only [appendLast, List.filterMap_cons, h l]
    · simp only [appendLast, List.filterMap_cons, ih (by simp)]

theorem filterMap_splitNl_trimFront (cs : List Char) :
    List.filterMap parseLinePy (splitNl (List.dropWhile isPySpace cs)) =
      List.filterMap parseLinePy (splitNl cs) := by
  induction cs with
  | nil => rfl
  | cons c cs ih =>
    by_cases hw : isPySpace c = true
    · rw [List.dropWhile_cons_of_pos hw]
      by_cases hc : c = '\n'
      · subst hc
        rw [splitNl_cons_nl, List.filterMap_cons, parseLinePy_nil, ih]
      · rw [splitNl_cons_ne hc]
        rcases h : splitNl cs with _ | ⟨l, ls⟩
        · exact absurd h (splitNl_ne_nil cs)
        · rw [ih, h]
          simp only [List.filterMap_cons, parseLinePy_cons_ws hw]
    · rw [List.dropWhile_cons_of_neg hw]

theorem filterMap_splitNl_trimBack (cs : List Char) :
    List.filterMap parseLinePy
        (splitNl ((List.dropWhile isPySpace cs.reverse).reverse)) =
      List.filterMap parseLinePy (splitNl cs) := by
  induction cs using List.reverseRecOn with
  | nil => rfl
  | append_singleton l a ih =>
    by_cases hw : isPySpace a = true
    · rw [List.reverse_append]
      simp only [List.reverse_cons, List.reverse_nil, List.nil_append, List.singleton_append,
        List.dropWhile_cons_of_pos hw]
      rw [ih]
      by_cases ha : a = '\n'
      · subst ha
        rw [splitNl_append_nl l, List.filterMap_append]
        simp [parseLinePy_nil]
      · rw [splitNl_append_single ha l,
          filterMap_appendLast (fun l2 => parseLinePy_append_ws hw l2) _ (splitNl_ne_nil l)]
    · rw [List.reverse_append]
      simp only [List.reverse_cons, List.reverse_nil, List.nil_append, List.singleton_append,
        List.dropWhile_cons_of_neg hw, List.reverse_cons, List.reverse_reverse]


/-- C8: the parser emits a DialogueLine for exactly those physical lines of
the raw script that carry a recognized role label (case-insensitive customer
and agent, and their localized forms 客戶 and 客服) before the line's first
separator colon, in original order with the remaining text trimmed; every
other physical line is dropped silently. parse_content is the source parser
(which strips the content before splitting); claimParse is the claim-side
restatement over the raw physical lines; they agree on every input, and both
are total Lean functions — the parser never raises. -/
theorem parser_recognizes_exactly_labeled_lines :
    ∀ content : String, parse_content content = claimParse content := by
  intro content
  unfold parse_content claimParse pyStripList
  rw [filterMap_splitNl_trimBack (List.dropWhile isPySpace content.toList),
    filterMap_splitNl_trimFront content.toList]
